import Mathlib

/-!
Verification of the SpotifyToYoutube converter script (src/main.py).

The script is shallowly embedded over `List Char` strings.  Python string
operations used by the script are modelled explicitly:

* `s.lower()`            becomes `pyLower` (ASCII lowercasing, `Char.toLower`);
* `p in s`               becomes `pyContains` (substring containment);
* `s.split(sep)`         becomes `pySplit` (leftmost, non-overlapping split);
* `f-strings`            become list concatenation.

External API calls (Spotify pagination, YouTube search, playlist
creation/insertion, user input) are modelled as explicit parameters: the
paginated Spotify response is a list of pages, the YouTube search endpoint is
a function from query strings to result lists, and the success or failure of
each playlist-item insertion is an oracle indexed by attempt position.
`time.sleep` calls are recorded as trace events carrying the duration in
milliseconds (500 for 0.5 s, 300 for 0.3 s).
-/

/-- Python `str.lower`, restricted to the ASCII range as modelling choice. -/
def pyLower (s : List Char) : List Char := s.map Char.toLower

/-- `startsWithL p s` is true when `p` is an initial segment of `s`. -/
def startsWithL : List Char → List Char → Bool
  | [], _ => true
  | _ :: _, [] => false
  | a :: as, b :: bs => (a == b) && startsWithL as bs

/-- Index of the leftmost occurrence of `p` in `s`, if any (Python `str.find`). -/
def findOcc (p : List Char) : List Char → Option Nat
  | [] => if p.isEmpty then some 0 else none
  | c :: rest => if startsWithL p (c :: rest) then some 0 else (findOcc p rest).map (fun j => j + 1)

/-- Python substring containment `p in s`. -/
def pyContains (p s : List Char) : Bool := (findOcc p s).isSome

/-- Fuelled worker for Python `str.split`: split at the leftmost occurrence of
the separator and recurse on the remainder.  Each step consumes at least one
character, so fuel `s.length` is always enough. -/
def pySplitF : List Char → Nat → List Char → List (List Char)
  | _, 0, s => [s]
  | [], _ + 1, s => [s]
  | a :: q, fuel + 1, s =>
    match findOcc (a :: q) s with
    | none => [s]
    | some i => s.take i :: pySplitF (a :: q) fuel (s.drop (i + (q.length + 1)))

/-- Python `s.split(p)` for a non-empty separator `p`. -/
def pySplit (p s : List Char) : List (List Char) := pySplitF p s.length s

/-- The separator literal `"/playlist/"` from `extract_playlist_id`. -/
def playlistPat : List Char := ['/', 'p', 'l', 'a', 'y', 'l', 'i', 's', 't', '/']

/-- The separator literal `"?"` from `extract_playlist_id`. -/
def qmarkPat : List Char := ['?']

/-- Embedding of `extract_playlist_id` (src/main.py lines 61-67):
`url.split("/playlist/")[1].split("?")[0]` when `"/playlist/" in url`,
otherwise the input unchanged. -/
def extract_playlist_id (url : List Char) : List Char :=
  if pyContains playlistPat url then
    (pySplit qmarkPat ((pySplit playlistPat url).getD 1 [])).getD 0 []
  else url

/-- The part of `s` strictly before the leftmost occurrence of `p` (all of `s`
when `p` does not occur). -/
def segBefore (p s : List Char) : List Char :=
  match findOcc p s with
  | none => s
  | some i => s.take i

/-- Behaviour described by the claim (not by the code): the substring strictly
between the first occurrence of `"/playlist/"` and the next `"?"` after it, or
the rest of the string when no `"?"` follows; inputs without `"/playlist/"`
pass through unchanged.  Kept separate so it can be compared with
`extract_playlist_id`. -/
def extract_playlist_id_claimed (url : List Char) : List Char :=
  if pyContains playlistPat url then
    segBefore qmarkPat (url.drop (((findOcc playlistPat url).getD 0) + playlistPat.length))
  else url

/-- A Spotify artist object, reduced to the only field the script reads. -/
structure SpotifyArtist where
  name : List Char
deriving DecidableEq

/-- A Spotify album object, reduced to the only field the script reads. -/
structure SpotifyAlbum where
  name : List Char
deriving DecidableEq

/-- The fields of a Spotify track object read by `get_playlist_tracks`. -/
structure SpotifyTrack where
  name : List Char
  artists : List SpotifyArtist
  album : SpotifyAlbum
  duration_ms : Nat
  spotify_url : List Char
deriving DecidableEq

/-- The `track_info` dictionary built in `get_playlist_tracks` (lines 96-104). -/
structure TrackInfo where
  number : Nat
  name : List Char
  artist : List Char
  all_artists : List Char
  album : List Char
  duration_ms : Nat
  spotify_url : List Char
deriving DecidableEq

/-- Construction of one `track_info` entry: 1-based position, primary artist
`track.artists[0].name`, and the comma-join of all artist names. -/
def mkInfo (idx : Nat) (t : SpotifyTrack) : TrackInfo :=
  ⟨idx, t.name, (t.artists.headD ⟨[]⟩).name,
   List.intercalate (", ".toList) (t.artists.map SpotifyArtist.name),
   t.album.name, t.duration_ms, t.spotify_url⟩

/-- One page of the paginated `sp.playlist_tracks` response: its `items` (each
item's `track` field may be null) and whether its `next` cursor is non-null. -/
structure Page where
  items : List (Option SpotifyTrack)
  next : Bool
deriving DecidableEq

/-- The pagination loop of `get_playlist_tracks` (lines 82-87): take the first
page, then keep following the cursor while `results['next']` is non-null. -/
def gather : List Page → List (Option SpotifyTrack)
  | [] => []
  | p :: rest => p.items ++ (if p.next then gather rest else [])

/-- Well-formed paginated response: at least one page, every page before the
last carries a non-null `next` cursor, and the last page's cursor is null. -/
def wfPages : List Page → Bool
  | [] => false
  | p :: rest => if rest.isEmpty then !p.next else p.next && wfPages rest

/-- The `for index, item in enumerate(tracks, 1)` loop (lines 90-106): null
tracks are skipped but still advance the index. -/
def build_track_list : Nat → List (Option SpotifyTrack) → List TrackInfo
  | _, [] => []
  | idx, none :: rest => build_track_list (idx + 1) rest
  | idx, some t :: rest => mkInfo idx t :: build_track_list (idx + 1) rest

/-- Embedding of the track-collecting part of `get_playlist_tracks`
(lines 82-109), over the paginated response. -/
def get_playlist_tracks (pages : List Page) : List TrackInfo :=
  build_track_list 1 (gather pages)

/-- A YouTube search result as assembled by `search_youtube` (lines 130-141). -/
structure Video where
  video_id : List Char
  title : List Char
  channel : List Char
  url : List Char
deriving DecidableEq

/-- One entry of the `matches` list built in `find_youtube_matches`. -/
structure MatchEntry where
  track : TrackInfo
  youtube : Video
  confidence : List Char
deriving DecidableEq

/-- Observable events of the `find_youtube_matches` loop: a YouTube search
with its query string, or a `time.sleep` with its duration in milliseconds. -/
inductive FEv where
  | search (q : List Char)
  | sleep (ms : Nat)
deriving DecidableEq

/-- Result of `find_youtube_matches`: the two returned lists plus the trace of
searches and sleeps the loop performed. -/
structure FymOut where
  found : List MatchEntry
  not_found : List TrackInfo
  events : List FEv
deriving DecidableEq

/-- The query built on line 161: `f"{track['artist']} {track['name']}"`. -/
def mkQuery (t : TrackInfo) : List Char := t.artist ++ ' ' :: t.name

/-- Embedding of `find_youtube_matches` (lines 150-202).  The YouTube search
endpoint is passed in as a function from queries to result lists.  For each
track: search once; when results are non-empty take the first one, append a
match entry whose confidence is `"high"` when the lowercased track name or the
lowercased primary-artist name occurs in the lowercased video title and
`"low"` otherwise; when the results are empty append the track to
`not_found`; sleep 0.5 s each iteration. -/
def find_youtube_matches (search : List Char → List Video) : List TrackInfo → FymOut
  | [] => ⟨[], [], []⟩
  | track :: rest =>
    let r := find_youtube_matches search rest
    match search (mkQuery track) with
    | [] =>
      ⟨r.found, track :: r.not_found,
       FEv.search (mkQuery track) :: FEv.sleep 500 :: r.events⟩
    | best :: _ =>
      ⟨⟨track, best,
        if pyContains (pyLower track.name) (pyLower best.title)
            || pyContains (pyLower track.artist) (pyLower best.title)
        then "high".toList else "low".toList⟩ :: r.found,
       r.not_found,
       FEv.search (mkQuery track) :: FEv.sleep 500 :: r.events⟩

/-- The query of a search event, when the event is a search. -/
def searchQueryOf : FEv → Option (List Char)
  | FEv.search q => some q
  | FEv.sleep _ => none

/-- Observable events of the `add_videos_to_playlist` loop: an insertion
attempt for a video id, or a `time.sleep` with its duration in milliseconds. -/
inductive AEv where
  | attempt (vid : List Char)
  | sleep (ms : Nat)
deriving DecidableEq

/-- Result of `add_videos_to_playlist`: the `added` and `failed` counters plus
the trace of insertion attempts and sleeps. -/
structure AvtOut where
  added : Nat
  failed : Nat
  events : List AEv
deriving DecidableEq

/-- The loop of `add_videos_to_playlist` (lines 241-262).  Whether the
insertion call raises is modelled by the oracle `ok`, indexed by attempt
position.  A successful attempt increments `added` and sleeps 0.3 s; a failed
one increments `failed` and moves on to the next video id. -/
def avtAux (ok : Nat → Bool) : Nat → List (List Char) → AvtOut
  | _, [] => ⟨0, 0, []⟩
  | i, v :: rest =>
    if ok i then
      ⟨(avtAux ok (i + 1) rest).added + 1, (avtAux ok (i + 1) rest).failed,
       AEv.attempt v :: AEv.sleep 300 :: (avtAux ok (i + 1) rest).events⟩
    else
      ⟨(avtAux ok (i + 1) rest).added, (avtAux ok (i + 1) rest).failed + 1,
       AEv.attempt v :: (avtAux ok (i + 1) rest).events⟩

/-- Embedding of `add_videos_to_playlist` (lines 234-268): it returns `added`,
the number of successful insertions. -/
def add_videos_to_playlist (ok : Nat → Bool) (video_ids : List (List Char)) : Nat :=
  (avtAux ok 0 video_ids).added

/-- The video id of an attempt event, when the event is an attempt. -/
def attemptVid : AEv → Option (List Char)
  | AEv.attempt v => some v
  | AEv.sleep _ => none

/-- The pipeline stages of `main` named by the spec. -/
inductive Stage where
  | fetch
  | searchMatch
  | confirm
  | create
  | insert
  | report
deriving DecidableEq

/-- The external world `main` interacts with: the pasted URL, the playlist
name and paginated response returned by Spotify (`none` when the fetch
raises), whether YouTube authentication succeeds, the YouTube search endpoint,
the confirmation line typed by the user, the id returned by playlist creation
(`none` when the creation call raises), and the per-attempt insertion
oracle. -/
structure Env where
  url : List Char
  playlistName : List Char
  pages : Option (List Page)
  ytOk : Bool
  search : List Char → List Video
  confirmInput : List Char
  createdId : Option (List Char)
  insertOk : Nat → Bool

/-- Observable outcome of one run of `main`: the stages entered in order, the
titles of the playlists successfully created, and the insertion trace. -/
structure RunOut where
  stages : List Stage
  createdTitles : List (List Char)
  attempts : List AEv
deriving DecidableEq

/-- Embedding of `main` (lines 271-341).  Early returns: failed or empty
fetch, failed YouTube authentication, no matches, a confirmation other than
`y` (lowercased), and a failed creation call.  On the full path the new
playlist is titled `f"{playlist_name} (from Spotify)"` and the video ids of
the matches are handed to `add_videos_to_playlist`. -/
def mainRun (env : Env) : RunOut :=
  match env.pages with
  | none => ⟨[Stage.fetch], [], []⟩
  | some pages =>
    if get_playlist_tracks pages = [] then ⟨[Stage.fetch], [], []⟩
    else if env.ytOk = false then ⟨[Stage.fetch], [], []⟩
    else if (find_youtube_matches env.search (get_playlist_tracks pages)).found = [] then
      ⟨[Stage.fetch, Stage.searchMatch], [], []⟩
    else if pyLower env.confirmInput ≠ ['y'] then
      ⟨[Stage.fetch, Stage.searchMatch, Stage.confirm], [], []⟩
    else
      match env.createdId with
      | none => ⟨[Stage.fetch, Stage.searchMatch, Stage.confirm, Stage.create], [], []⟩
      | some _ =>
        ⟨[Stage.fetch, Stage.searchMatch, Stage.confirm, Stage.create, Stage.insert, Stage.report],
         [env.playlistName ++ " (from Spotify)".toList],
         (avtAux env.insertOk 0
           ((find_youtube_matches env.search (get_playlist_tracks pages)).found.map
             (fun m => m.youtube.video_id))).events⟩

/-- Concrete Spotify track used in witnesses. -/
def wst1 : SpotifyTrack := ⟨"Song".toList, [⟨"Band".toList⟩], ⟨"Alb".toList⟩, 100, "su1".toList⟩

/-- Concrete Spotify track whose name and artist do not occur in `wvideo2`. -/
def wst2 : SpotifyTrack := ⟨"aaa".toList, [⟨"bbb".toList⟩], ⟨"alb".toList⟩, 50, "su2".toList⟩

/-- Concrete fetched track built from `wst1`. -/
def wtrack1 : TrackInfo := mkInfo 1 wst1

/-- Concrete fetched track built from `wst2`. -/
def wtrack2 : TrackInfo := mkInfo 1 wst2

/-- Concrete search result whose title contains the track name of `wtrack1`. -/
def wvideo1 : Video := ⟨"vidA".toList, "Band - Song (Official Video)".toList, "ch".toList, "yu1".toList⟩

/-- Concrete search result whose title contains neither the name nor the
artist of `wtrack2`. -/
def wvideo2 : Video := ⟨"vidB".toList, "zzz".toList, "ch".toList, "yu2".toList⟩

/-- Search endpoint that always returns `wvideo1`. -/
def wsearch1 : List Char → List Video := fun _ => [wvideo1]

/-- Search endpoint that always returns `wvideo2`. -/
def wsearch2 : List Char → List Video := fun _ => [wvideo2]

/-- Concrete two-page paginated response (with one null track). -/
def wpages : List Page := [⟨[some wst1, none], true⟩, ⟨[some wst2], false⟩]

/-- Concrete one-page paginated response. -/
def wpages5 : List Page := [⟨[some wst1], false⟩]

/-- Environment in which the uncertain match of `wtrack2` is confirmed. -/
def wenv2 : Env :=
  ⟨"u".toList, "MyList".toList, some [⟨[some wst2], false⟩], true, wsearch2,
   "y".toList, some ("PL".toList), fun _ => true⟩

/-- Environment whose confirmation input is `n`. -/
def wenv4 : Env :=
  ⟨"u".toList, "MyList".toList, some wpages5, true, wsearch1,
   "n".toList, some ("PL".toList), fun _ => true⟩

/-- Environment taking the full pipeline path. -/
def wenv5 : Env :=
  ⟨"u".toList, "MyList".toList, some wpages5, true, wsearch1,
   "y".toList, some ("PL".toList), fun _ => true⟩

/-- URL with a second `"/playlist/"` occurrence after the first. -/
def cex10 : List Char := "/playlist/A/playlist/B".toList

/-- Ordinary playlist URL with a query string. -/
def wurl10 : List Char := "x/playlist/ID37?si=q".toList

lemma startsWithL_le : ∀ (p s : List Char), startsWithL p s = true → p.length ≤ s.length := by
  intro p
  induction p with
  | nil => intro s _; simp
  | cons a as ih =>
    intro s h
    cases s with
    | nil => simp [startsWithL] at h
    | cons b bs =>
      simp only [startsWithL, Bool.and_eq_true] at h
      have := ih bs h.2
      simp [List.length_cons]
      omega

lemma findOcc_le (p : List Char) : ∀ (s : List Char) (i : Nat), findOcc p s = some i → i + p.length ≤ s.length := by
  intro s
  induction s with
  | nil =>
    intro i h
    cases p with
    | nil => simp [findOcc] at h; omega
    | cons a q => simp [findOcc] at h
  | cons c rest ih =>
    intro i h
    by_cases hs : startsWithL p (c :: rest) = true
    · simp [findOcc, hs] at h
      have := startsWithL_le p (c :: rest) hs
      omega
    · simp [findOcc, hs] at h
      obtain ⟨j, hj, hij⟩ := h
      have := ih j hj
      simp [List.length_cons]
      omega

lemma pySplitF_head (a : Char) (q : List Char) :
    ∀ (fuel : Nat) (s : List Char), s.length ≤ fuel →
      (pySplitF (a :: q) fuel s).getD 0 [] = segBefore (a :: q) s := by
  intro fuel
  cases fuel with
  | zero =>
    intro s hs
    have : s = [] := List.eq_nil_of_length_eq_zero (Nat.le_zero.mp hs)
    subst this
    simp [pySplitF, segBefore, findOcc]
  | succ n =>
    intro s _
    cases h : findOcc (a :: q) s with
    | none => simp [pySplitF, h, segBefore]
    | some i => simp [pySplitF, h, segBefore]

lemma wfPages_single (p : Page) : wfPages [p] = !p.next := rfl

lemma wfPages_cons_cons (p q : Page) (t : List Page) :
    wfPages (p :: q :: t) = (p.next && wfPages (q :: t)) := rfl

lemma gather_wf : ∀ (pages : List Page), wfPages pages = true →
    gather pages = (pages.map Page.items).flatten := by
  intro pages
  induction pages with
  | nil => intro h; simp [wfPages] at h
  | cons p rest ih =>
    intro h
    cases rest with
    | nil =>
      rw [wfPages_single] at h
      have hn : p.next = false := by simpa using h
      simp [gather, hn]
    | cons q t =>
      rw [wfPages_cons_cons, Bool.and_eq_true] at h
      have hg : gather (p :: q :: t) = p.items ++ gather (q :: t) := by
        simp only [gather, h.1, if_true]
      rw [hg, ih h.2]
      simp

lemma btl_enum : ∀ (its : List (Option SpotifyTrack)) (n : Nat),
    build_track_list n its
      = (its.enumFrom n).filterMap (fun p => p.2.map (mkInfo p.1)) := by
  intro its
  induction its with
  | nil => intro n; simp [build_track_list]
  | cons o rest ih =>
    intro n
    cases o with
    | none => simp [build_track_list, ih, List.enumFrom_cons, List.filterMap_cons]
    | some t => simp [build_track_list, ih, List.enumFrom_cons, List.filterMap_cons]

lemma fym_cons_nil (search : List Char → List Video) (a : TrackInfo) (rest : List TrackInfo)
    (h : search (mkQuery a) = []) :
    find_youtube_matches search (a :: rest)
      = ⟨(find_youtube_matches search rest).found,
         a :: (find_youtube_matches search rest).not_found,
         FEv.search (mkQuery a) :: FEv.sleep 500 :: (find_youtube_matches search rest).events⟩ := by
  simp [find_youtube_matches, h]

lemma fym_cons_found (search : List Char → List Video) (a : TrackInfo) (rest : List TrackInfo)
    (v : Video) (vs : List Video) (h : search (mkQuery a) = v :: vs) :
    find_youtube_matches search (a :: rest)
      = ⟨⟨a, v,
          if pyContains (pyLower a.name) (pyLower v.title)
              || pyContains (pyLower a.artist) (pyLower v.title)
          then "high".toList else "low".toList⟩ :: (find_youtube_matches search rest).found,
         (find_youtube_matches search rest).not_found,
         FEv.search (mkQuery a) :: FEv.sleep 500 :: (find_youtube_matches search rest).events⟩ := by
  simp [find_youtube_matches, h]

lemma fym_events_join (search : List Char → List Video) : ∀ (tracks : List TrackInfo),
    (find_youtube_matches search tracks).events
      = (tracks.map (fun t => [FEv.search (mkQuery t), FEv.sleep 500])).flatten := by
  intro tracks
  induction tracks with
  | nil => simp [find_youtube_matches]
  | cons a rest ih =>
    cases h : search (mkQuery a) with
    | nil => rw [fym_cons_nil search a rest h]; simp [ih]
    | cons v vs => rw [fym_cons_found search a rest v vs h]; simp [ih]

lemma avt_attempts (ok : Nat → Bool) : ∀ (ids : List (List Char)) (i : Nat),
    (avtAux ok i ids).events.filterMap attemptVid = ids := by
  intro ids
  induction ids with
  | nil => intro i; simp [avtAux]
  | cons v rest ih =>
    intro i
    cases h : ok i with
    | true => simp [avtAux, h, attemptVid, ih]
    | false => simp [avtAux, h, attemptVid, ih]

lemma avt_counts (ok : Nat → Bool) : ∀ (ids : List (List Char)) (i : Nat),
    (avtAux ok i ids).added + (avtAux ok i ids).failed = ids.length := by
  intro ids
  induction ids with
  | nil => intro i; simp [avtAux]
  | cons v rest ih =>
    intro i
    cases h : ok i with
    | true => simp [avtAux, h]; have := ih (i + 1); omega
    | false => simp [avtAux, h]; have := ih (i + 1); omega

lemma avt_events_join (ok : Nat → Bool) : ∀ (ids : List (List Char)) (i : Nat),
    (avtAux ok i ids).events
      = ((ids.enumFrom i).map
          (fun p => if ok p.1 = true then [AEv.attempt p.2, AEv.sleep 300]
                    else [AEv.attempt p.2])).flatten := by
  intro ids
  induction ids with
  | nil => intro i; simp [avtAux]
  | cons v rest ih =>
    intro i
    cases h : ok i with
    | true => simp [avtAux, h, List.enumFrom_cons, ih]
    | false => simp [avtAux, h, List.enumFrom_cons, ih]

/-- C1: for every track whose YouTube search returns at least one result, the
first result is taken as the match, and the recorded confidence is high
exactly when the lowercased track name or the lowercased primary-artist name
is a substring of the lowercased video title, and low otherwise. -/
theorem claim_C1_first_result_confidence (search : List Char → List Video)
    (tracks : List TrackInfo) (t : TrackInfo) (ht : t ∈ tracks)
    (v : Video) (vs : List Video) (hv : search (mkQuery t) = v :: vs) :
    ∃ m ∈ (find_youtube_matches search tracks).found,
      m.track = t ∧ m.youtube = v ∧
      m.confidence =
        (if pyContains (pyLower t.name) (pyLower v.title)
            || pyContains (pyLower t.artist) (pyLower v.title)
         then "high".toList else "low".toList) := by
  induction tracks with
  | nil => cases ht
  | cons a rest ih =>
    rcases List.mem_cons.mp ht with rfl | hmem
    · rw [fym_cons_found search t rest v vs hv]
      exact ⟨_, List.mem_cons_self _ _, rfl, rfl, rfl⟩
    · obtain ⟨m, hm, hprops⟩ := ih hmem
      cases h : search (mkQuery a) with
      | nil =>
        rw [fym_cons_nil search a rest h]
        exact ⟨m, hm, hprops⟩
      | cons w ws =>
        rw [fym_cons_found search a rest w ws h]
        exact ⟨m, List.mem_cons_of_mem _ hm, hprops⟩

/-- Witness for C1 at a concrete track and search endpoint. -/
theorem claim_C1_first_result_confidence_witness :
    wtrack1 ∈ [wtrack1] ∧ wsearch1 (mkQuery wtrack1) = wvideo1 :: [] ∧
    (∃ m ∈ (find_youtube_matches wsearch1 [wtrack1]).found,
      m.track = wtrack1 ∧ m.youtube = wvideo1 ∧
      m.confidence =
        (if pyContains (pyLower wtrack1.name) (pyLower wvideo1.title)
            || pyContains (pyLower wtrack1.artist) (pyLower wvideo1.title)
         then "high".toList else "low".toList)) :=
  ⟨by decide, rfl,
   claim_C1_first_result_confidence wsearch1 [wtrack1] wtrack1 (by decide) wvideo1 [] rfl⟩

/-- C2 counterexample: for `wtrack2` the substring containment check fails in
both directions, yet the track is still placed in the matched results, and in
a confirming run its video is inserted into the playlist.  The check is not an
acceptance check. -/
theorem claim_C2_counterexample :
    pyContains (pyLower wtrack2.name) (pyLower wvideo2.title) = false
    ∧ pyContains (pyLower wtrack2.artist) (pyLower wvideo2.title) = false
    ∧ (find_youtube_matches wsearch2 [wtrack2]).found.map MatchEntry.track = [wtrack2]
    ∧ (mainRun wenv2).attempts.filterMap attemptVid = [wvideo2.video_id] := by
  decide

/-- C2 as amended: every track whose search returns results is included in
the matched results regardless of the substring containment check; the check
only determines the recorded confidence (high when it succeeds, low
otherwise), and every matched entry stems from a non-empty search. -/
theorem claim_C2_amended (search : List Char → List Video) (tracks : List TrackInfo) :
    (∀ t ∈ tracks, search (mkQuery t) ≠ [] →
        ∃ m ∈ (find_youtube_matches search tracks).found, m.track = t)
    ∧ (∀ m ∈ (find_youtube_matches search tracks).found,
        search (mkQuery m.track) ≠ []
        ∧ m.confidence =
          (if pyContains (pyLower m.track.name) (pyLower m.youtube.title)
              || pyContains (pyLower m.track.artist) (pyLower m.youtube.title)
           then "high".toList else "low".toList)) := by
  induction tracks with
  | nil =>
    constructor
    · intro t ht; cases ht
    · intro m hm; simp [find_youtube_matches] at hm
  | cons a rest ih =>
    obtain ⟨ih1, ih2⟩ := ih
    constructor
    · intro t ht hne
      rcases List.mem_cons.mp ht with rfl | hmem
      · cases h : search (mkQuery t) with
        | nil => exact absurd h hne
        | cons v vs =>
          rw [fym_cons_found search t rest v vs h]
          exact ⟨_, List.mem_cons_self _ _, rfl⟩
      · obtain ⟨m, hm, hmt⟩ := ih1 t hmem hne
        cases h : search (mkQuery a) with
        | nil =>
          rw [fym_cons_nil search a rest h]
          exact ⟨m, hm, hmt⟩
        | cons w ws =>
          rw [fym_cons_found search a rest w ws h]
          exact ⟨m, List.mem_cons_of_mem _ hm, hmt⟩
    · intro m hm
      cases h : search (mkQuery a) with
      | nil =>
        rw [fym_cons_nil search a rest h] at hm
        exact ih2 m hm
      | cons w ws =>
        rw [fym_cons_found search a rest w ws h] at hm
        rcases List.mem_cons.mp hm with rfl | hmem
        · exact ⟨by simp [h], rfl⟩
        · exact ih2 m hmem

/-- Witness for the amended C2: the uncertain track is nonetheless matched. -/
theorem claim_C2_amended_witness :
    ∃ m ∈ (find_youtube_matches wsearch2 [wtrack2]).found, m.track = wtrack2 :=
  (claim_C2_amended wsearch2 [wtrack2]).1 wtrack2 (by decide) (by decide)

/-- C3: under a well-formed paginated response, `get_playlist_tracks` follows
the `next` cursor from the first page until it is null, and the returned
track list corresponds, in order, to the concatenation of every page's items
with null tracks skipped (each surviving item carrying its 1-based
enumeration index). -/
theorem claim_C3_pagination (pages : List Page) (h : wfPages pages = true) :
    gather pages = (pages.map Page.items).flatten
    ∧ get_playlist_tracks pages
        = (((pages.map Page.items).flatten).enumFrom 1).filterMap
            (fun p => p.2.map (mkInfo p.1)) := by
  refine ⟨gather_wf pages h, ?_⟩
  rw [get_playlist_tracks, gather_wf pages h, btl_enum]

/-- Witness for C3 on a concrete two-page response containing a null track. -/
theorem claim_C3_pagination_witness :
    wfPages wpages = true
    ∧ (gather wpages = (wpages.map Page.items).flatten
       ∧ get_playlist_tracks wpages
           = (((wpages.map Page.items).flatten).enumFrom 1).filterMap
               (fun p => p.2.map (mkInfo p.1))) :=
  ⟨by decide, claim_C3_pagination wpages (by decide)⟩

/-- C6: the search trace of `find_youtube_matches` contains exactly one query
per input track, in input order, and each query is the track's primary-artist
name, a space, and the track name. -/
theorem claim_C6_one_search_per_track (search : List Char → List Video)
    (tracks : List TrackInfo) :
    (find_youtube_matches search tracks).events.filterMap searchQueryOf
      = tracks.map (fun t => t.artist ++ ' ' :: t.name) := by
  induction tracks with
  | nil => simp [find_youtube_matches]
  | cons a rest ih =>
    cases h : search (mkQuery a) with
    | nil =>
      rw [fym_cons_nil search a rest h]
      simp [searchQueryOf, ih, mkQuery]
    | cons v vs =>
      rw [fym_cons_found search a rest v vs h]
      simp [searchQueryOf, ih, mkQuery]

/-- C7: the trace of `find_youtube_matches` sleeps 500 ms directly after each
per-track search, whether or not a match was found, and the trace of the
insertion loop sleeps 300 ms directly after each successful insertion attempt
and not after failed ones (durations in milliseconds: 500 = 0.5 s,
300 = 0.3 s). -/
theorem claim_C7_sleep_rate_limiting (search : List Char → List Video)
    (tracks : List TrackInfo) (ok : Nat → Bool) (ids : List (List Char)) :
    (find_youtube_matches search tracks).events
      = (tracks.map (fun t => [FEv.search (mkQuery t), FEv.sleep 500])).flatten
    ∧ (avtAux ok 0 ids).events
      = ((ids.enumFrom 0).map
          (fun p => if ok p.1 = true then [AEv.attempt p.2, AEv.sleep 300]
                    else [AEv.attempt p.2])).flatten :=
  ⟨fym_events_join search tracks, avt_events_join ok ids 0⟩

/-- C8: `find_youtube_matches` partitions its input: the tracks of the match
entries are exactly the input tracks with a non-empty search result, in input
order; `not_found` is exactly the input tracks with an empty search result,
in input order; the two lengths sum to the input length. -/
theorem claim_C8_partition (search : List Char → List Video) (tracks : List TrackInfo) :
    (find_youtube_matches search tracks).found.map MatchEntry.track
      = tracks.filter (fun t => !(search (mkQuery t)).isEmpty)
    ∧ (find_youtube_matches search tracks).not_found
      = tracks.filter (fun t => (search (mkQuery t)).isEmpty)
    ∧ (find_youtube_matches search tracks).found.length
        + (find_youtube_matches search tracks).not_found.length = tracks.length := by
  induction tracks with
  | nil => simp [find_youtube_matches]
  | cons a rest ih =>
    obtain ⟨ih1, ih2, ih3⟩ := ih
    cases h : search (mkQuery a) with
    | nil =>
      rw [fym_cons_nil search a rest h]
      refine ⟨?_, ?_, ?_⟩
      · simp [List.filter_cons, h, ih1]
      · simp [List.filter_cons, h, ih2]
      · simp; omega
    | cons v vs =>
      rw [fym_cons_found search a rest v vs h]
      refine ⟨?_, ?_, ?_⟩
      · simp [List.filter_cons, h, ih1]
      · simp [List.filter_cons, h, ih2]
      · simp; omega

/-- C9: the insertion loop gives every video id exactly one attempt, in input
order, regardless of which attempts fail; the success and failure counters
sum to the input length; and `add_videos_to_playlist` returns the success
counter. -/
theorem claim_C9_insertion_attempts (ok : Nat → Bool) (ids : List (List Char)) :
    (avtAux ok 0 ids).events.filterMap attemptVid = ids
    ∧ (avtAux ok 0 ids).added + (avtAux ok 0 ids).failed = ids.length
    ∧ add_videos_to_playlist ok ids = (avtAux ok 0 ids).added :=
  ⟨avt_attempts ok ids 0, avt_counts ok ids 0, rfl⟩

/-- C4: in every run the stage sequence of `main` is a subsequence of the
fixed order Fetch, Search/Match, Confirm, Create, Insert, Report (so each
stage occurs at most once and in that order); the Create stage is only
entered after the Confirm stage and a lowercased confirmation equal to `y`;
and when the lowercased confirmation differs from `y` no playlist is created
and no insertion attempt is made. -/
theorem claim_C4_stage_order (env : Env) :
    List.Sublist (mainRun env).stages
      [Stage.fetch, Stage.searchMatch, Stage.confirm, Stage.create, Stage.insert, Stage.report]
    ∧ (Stage.create ∈ (mainRun env).stages →
        Stage.confirm ∈ (mainRun env).stages ∧ pyLower env.confirmInput = ['y'])
    ∧ (pyLower env.confirmInput ≠ ['y'] →
        (mainRun env).createdTitles = [] ∧ (mainRun env).attempts = []
        ∧ Stage.create ∉ (mainRun env).stages ∧ Stage.insert ∉ (mainRun env).stages) := by
  rcases hpg : env.pages with _ | pages
  · simp only [mainRun, hpg]
    exact ⟨by decide, fun h => absurd h (by decide), fun _ => ⟨by trivial, by trivial, by decide, by decide⟩⟩
  · simp only [mainRun, hpg]
    split_ifs with h1 h2 h3 h4
    · exact ⟨by decide, fun h => absurd h (by decide), fun _ => ⟨by trivial, by trivial, by decide, by decide⟩⟩
    · exact ⟨by decide, fun h => absurd h (by decide), fun _ => ⟨by trivial, by trivial, by decide, by decide⟩⟩
    · exact ⟨by decide, fun h => absurd h (by decide), fun _ => ⟨by trivial, by trivial, by decide, by decide⟩⟩
    · exact ⟨by decide, fun h => absurd h (by decide), fun _ => ⟨by trivial, by trivial, by decide, by decide⟩⟩
    · have hy : pyLower env.confirmInput = ['y'] := not_not.mp h4
      rcases hcr : env.createdId with _ | pid
      · simp only [hcr]
        exact ⟨by decide, fun _ => ⟨by decide, hy⟩, fun hne => absurd hy hne⟩
      · simp only [hcr]
        exact ⟨by decide, fun _ => ⟨by decide, hy⟩, fun hne => absurd hy hne⟩

/-- Witness for C4: with confirmation input `n` nothing is created or
inserted. -/
theorem claim_C4_stage_order_witness :
    pyLower wenv4.confirmInput ≠ ['y']
    ∧ ((mainRun wenv4).createdTitles = [] ∧ (mainRun wenv4).attempts = []
       ∧ Stage.create ∉ (mainRun wenv4).stages ∧ Stage.insert ∉ (mainRun wenv4).stages) :=
  ⟨by decide, (claim_C4_stage_order wenv4).2.2 (by decide)⟩

/-- C5: on a run that reaches the confirmation prompt, is confirmed with `y`,
and whose creation call succeeds, exactly one playlist is created (titled
after the Spotify playlist) and the insertion attempts are exactly the video
ids of the matched results, one attempt per match, in match order. -/
theorem claim_C5_create_then_insert (env : Env) (pages : List Page) (pid : List Char)
    (hp : env.pages = some pages)
    (htr : get_playlist_tracks pages ≠ [])
    (hyt : env.ytOk = true)
    (hm : (find_youtube_matches env.search (get_playlist_tracks pages)).found ≠ [])
    (hc : pyLower env.confirmInput = ['y'])
    (hcr : env.createdId = some pid) :
    (mainRun env).createdTitles = [env.playlistName ++ " (from Spotify)".toList]
    ∧ (mainRun env).attempts.filterMap attemptVid
        = (find_youtube_matches env.search (get_playlist_tracks pages)).found.map
            (fun m => m.youtube.video_id) := by
  constructor
  · simp [mainRun, hp, htr, hyt, hm, hc, hcr]
  · simp only [mainRun, hp]
    rw [if_neg htr, if_neg (by simp [hyt]), if_neg hm, if_neg (by simp [hc]), hcr]
    exact avt_attempts env.insertOk _ 0

/-- Witness for C5 on a concrete full-path environment. -/
theorem claim_C5_create_then_insert_witness :
    wenv5.pages = some wpages5
    ∧ get_playlist_tracks wpages5 ≠ []
    ∧ wenv5.ytOk = true
    ∧ (find_youtube_matches wenv5.search (get_playlist_tracks wpages5)).found ≠ []
    ∧ pyLower wenv5.confirmInput = ['y']
    ∧ wenv5.createdId = some ("PL".toList)
    ∧ ((mainRun wenv5).createdTitles = [wenv5.playlistName ++ " (from Spotify)".toList]
       ∧ (mainRun wenv5).attempts.filterMap attemptVid
           = (find_youtube_matches wenv5.search (get_playlist_tracks wpages5)).found.map
               (fun m => m.youtube.video_id)) :=
  ⟨rfl, by decide, rfl, by decide, by decide, rfl,
   claim_C5_create_then_insert wenv5 wpages5 ("PL".toList) rfl (by decide) rfl
     (by decide) (by decide) rfl⟩

lemma pySplitF_succ (a : Char) (q s : List Char) (n i : Nat)
    (hi : findOcc (a :: q) s = some i) :
    pySplitF (a :: q) (n + 1) s
      = s.take i :: pySplitF (a :: q) n (s.drop (i + (q.length + 1))) := by
  simp only [pySplitF, hi]

lemma pySplit_head_qmark (s : List Char) :
    (pySplit qmarkPat s).getD 0 [] = segBefore qmarkPat s := by
  unfold pySplit qmarkPat
  exact pySplitF_head '?' [] s.length s (Nat.le_refl _)

/-- C10 counterexample: on a URL with a second `"/playlist/"` occurrence the
code truncates at that second occurrence, while the claim prescribes the
whole remainder of the string (there is no `"?"`). -/
theorem claim_C10_counterexample :
    extract_playlist_id cex10 = ['A']
    ∧ extract_playlist_id_claimed cex10 = "A/playlist/B".toList
    ∧ extract_playlist_id cex10 ≠ extract_playlist_id_claimed cex10 := by
  decide

/-- C10 as amended: for every input containing `"/playlist/"`,
`extract_playlist_id` returns the substring strictly between the first
occurrence of `"/playlist/"` and the next occurrence of `"/playlist/"` after
it (or the rest of the string when none follows), truncated strictly before
the first `"?"` within that segment; inputs without `"/playlist/"` are
returned unchanged. -/
theorem claim_C10_amended (url : List Char) :
    (∀ i, findOcc playlistPat url = some i →
        extract_playlist_id url
          = segBefore qmarkPat (segBefore playlistPat (url.drop (i + playlistPat.length))))
    ∧ (findOcc playlistPat url = none → extract_playlist_id url = url) := by
  constructor
  · intro i hi
    have hb : i + playlistPat.length ≤ url.length := findOcc_le playlistPat url i hi
    have hpl : playlistPat.length = 10 := rfl
    unfold extract_playlist_id
    rw [if_pos (by simp [pyContains, hi])]
    rw [pySplit_head_qmark, hpl]
    obtain ⟨n, hn⟩ : ∃ n, url.length = n + 1 := ⟨url.length - 1, by omega⟩
    have key : (pySplit playlistPat url).getD 1 []
        = segBefore playlistPat (url.drop (i + 10)) := by
      simp only [pySplit, hn]
      simp only [playlistPat] at hi ⊢
      rw [pySplitF_succ '/' ['p', 'l', 'a', 'y', 'l', 'i', 's', 't', '/'] url n i hi]
      rw [show (['p', 'l', 'a', 'y', 'l', 'i', 's', 't', '/'] : List Char).length + 1 = 10 from rfl]
      show (pySplitF ('/' :: ['p', 'l', 'a', 'y', 'l', 'i', 's', 't', '/']) n
          (url.drop (i + 10))).getD 0 [] = _
      refine pySplitF_head '/' ['p', 'l', 'a', 'y', 'l', 'i', 's', 't', '/'] n _ ?_
      simp only [List.length_drop]
      omega
    rw [key]
  · intro h
    unfold extract_playlist_id
    rw [if_neg (by simp [pyContains, h])]

/-- Witness for the amended C10 on an ordinary playlist URL. -/
theorem claim_C10_amended_witness :
    findOcc playlistPat wurl10 = some 1
    ∧ extract_playlist_id wurl10
        = segBefore qmarkPat (segBefore playlistPat (wurl10.drop (1 + playlistPat.length))) :=
  ⟨by decide, (claim_C10_amended wurl10).1 1 (by decide)⟩
